/-
Verification of the PngMe chunk codec against its specification.

Shallow embedding of `src/chunk_type.rs` and `src/chunk.rs` (and, where the
sources are missing, a model of `src/png.rs` reconstructed from the spec).
Byte buffers are `List Nat` with each element standing for a `u8` value;
32-bit arithmetic is `Nat` with explicit `% 2 ^ 32` where the Rust code
truncates (`as u32`, `u32` fields).
-/
import Mathlib

set_option maxRecDepth 100000

/-! ## Big-endian 32-bit framing helpers (`u32::to_be_bytes` / `from_be_bytes`) -/

/-- `u32::to_be_bytes`: most significant byte first.  The `% 256` of each
entry mirrors the byte decomposition of a `u32` value. -/
def toBE4 (x : Nat) : List Nat :=
  [x / 16777216 % 256, x / 65536 % 256, x / 256 % 256, x % 256]

/-- `u32::from_be_bytes` on a 4-byte big-endian list (folds exactly like the
byte recomposition). -/
def beToNat (l : List Nat) : Nat :=
  l.foldl (fun acc b => acc * 256 + b) 0

theorem toBE4_length (x : Nat) : (toBE4 x).length = 4 := rfl

theorem beToNat_toBE4 (x : Nat) : beToNat (toBE4 x) = x % 2 ^ 32 := by
  simp only [toBE4, beToNat, List.foldl]
  omega

/-! ## CRC-32 (ISO-HDLC), as computed by the `crc` crate

`crc::Crc::<u32>::new(&crc::CRC_32_ISO_HDLC).checksum(bytes)` is the
standard reflected CRC-32: state starts at `0xFFFFFFFF`; each byte is
xor-ed into the low 8 bits of the state and followed by 8 shift rounds
with the reflected polynomial `0xEDB88320`; the final state is xor-ed
with `0xFFFFFFFF`.  The `b % 256` in `byteStep` is the `u8` range of the
input byte. -/

def CRC_POLY : Nat := 0xEDB88320

/-- One shift round of the reflected CRC-32. -/
def bitStep (s : Nat) : Nat :=
  if s &&& 1 = 1 then (s >>> 1) ^^^ CRC_POLY else s >>> 1

/-- `k` shift rounds. -/
def bitSteps : Nat → Nat → Nat
  | 0, s => s
  | k + 1, s => bitSteps k (bitStep s)

/-- Process one input byte. -/
def byteStep (s b : Nat) : Nat := bitSteps 8 (s ^^^ b % 256)

/-- Run the CRC state machine over a byte list. -/
def crcFold (s : Nat) (l : List Nat) : Nat := l.foldl byteStep s

/-- `checksum` of the `crc` crate for `CRC_32_ISO_HDLC`. -/
def crc32 (l : List Nat) : Nat := crcFold 0xFFFFFFFF l ^^^ 0xFFFFFFFF

/-- CRC-32/ISO-HDLC check value: `crc32("123456789") = 0xCBF43926`. -/
theorem crc32_check_value :
    crc32 [49, 50, 51, 52, 53, 54, 55, 56, 57] = 0xCBF43926 := by decide

/-! ## `ChunkType` (src/chunk_type.rs) -/

/-- `ChunkType { bytes: [u8; 4] }`: the four bytes of the tag. -/
structure ChunkType where
  b0 : Nat
  b1 : Nat
  b2 : Nat
  b3 : Nat
  deriving DecidableEq

namespace ChunkType

/-- `ChunkType::bytes`. -/
def bytes (t : ChunkType) : List Nat := [t.b0, t.b1, t.b2, t.b3]

/-- `ChunkType::is_critical`: bit 5 of byte 0 clear. -/
def is_critical (t : ChunkType) : Bool := t.b0 &&& 32 == 0

/-- `ChunkType::is_public`: bit 5 of byte 1 clear. -/
def is_public (t : ChunkType) : Bool := t.b1 &&& 32 == 0

/-- `ChunkType::is_reserved_bit_valid`: bit 5 of byte 2 clear. -/
def is_reserved_bit_valid (t : ChunkType) : Bool := t.b2 &&& 32 == 0

/-- `ChunkType::is_safe_to_copy`: bit 5 of byte 3 set. -/
def is_safe_to_copy (t : ChunkType) : Bool := t.b3 &&& 32 != 0

/-- `ChunkType::is_valid`. -/
def is_valid (t : ChunkType) : Bool := t.is_reserved_bit_valid

/-- `TryFrom<[u8; 4]> for ChunkType`: always `Ok`, keeping the four bytes.
Applied in the code only to lists of exactly four bytes; the `getD`
defaults never fire there. -/
def fromBytes (l : List Nat) : ChunkType :=
  ⟨l.getD 0 0, l.getD 1 0, l.getD 2 0, l.getD 3 0⟩

/-- `u8::is_ascii_alphabetic`. -/
def isAsciiAlphabetic (b : Nat) : Bool :=
  decide ((65 ≤ b ∧ b ≤ 90) ∨ (97 ≤ b ∧ b ≤ 122))

/-- Write slot `i` of the byte array (`chunktype.bytes[i] = ch`).  Only
reached with `i < 4`; the catch-all is dead code. -/
def setByte (t : ChunkType) (i b : Nat) : ChunkType :=
  match i with
  | 0 => { t with b0 := b }
  | 1 => { t with b1 := b }
  | 2 => { t with b2 := b }
  | 3 => { t with b3 := b }
  | _ => t

end ChunkType

/-- Outcome of `ChunkType::from_str`: `Ok`, the `bail!("invalid byte: ...")`
error carrying the offending byte, or a Rust panic (out-of-bounds array
write `bytes[i]` for `i ≥ 4`). -/
inductive FromStrOutcome where
  | ok (t : ChunkType)
  | invalidByte (b : Nat)
  | panic
  deriving DecidableEq

/-- The loop of `ChunkType::from_str`: `for (i, ch) in s.as_bytes().iter()
.enumerate()`, bailing on a non-alphabetic byte, then writing `bytes[i]`
(which panics when `i ≥ 4`). -/
def fromStrLoop : List Nat → Nat → ChunkType → FromStrOutcome
  | [], _, acc => .ok acc
  | ch :: rest, i, acc =>
    if ChunkType.isAsciiAlphabetic ch then
      if i < 4 then fromStrLoop rest (i + 1) (acc.setByte i ch)
      else .panic
    else .invalidByte ch

/-- `ChunkType::from_str`, on the UTF-8 bytes of the input string, starting
from `ChunkType { bytes: [0; 4] }`. -/
def ChunkType.from_str (s : List Nat) : FromStrOutcome :=
  fromStrLoop s 0 ⟨0, 0, 0, 0⟩

/-! ## `Chunk` (src/chunk.rs) -/

/-- `Chunk { length: u32, chunktype: ChunkType, data: Vec<u8>, crc: u32 }`. -/
structure Chunk where
  length : Nat
  chunktype : ChunkType
  data : List Nat
  crc : Nat
  deriving DecidableEq

namespace Chunk

/-- `Chunk::new`: derives `length` (with the `as u32` truncation) and the
CRC over `chunk_type.bytes() ++ data`. -/
def new (chunk_type : ChunkType) (data : List Nat) : Chunk :=
  { length := data.length % 2 ^ 32
    chunktype := chunk_type
    data := data
    crc := crc32 (chunk_type.bytes ++ data) }

/-- `Chunk::as_bytes`: `length` (big-endian) ++ type bytes ++ data ++ `crc`
(big-endian). -/
def as_bytes (c : Chunk) : List Nat :=
  toBE4 c.length ++ c.chunktype.bytes ++ c.data ++ toBE4 c.crc

end Chunk

/-- Outcome of `Chunk::try_from(&[u8])`: success, an I/O `UnexpectedEof`
from `read_exact` (the buffer is shorter than a read demands), the
`bail!("Invalid CRC ...")` error carrying the stored and computed values,
or a Rust panic (the out-of-bounds slice `&value[8..len + 8]`). -/
inductive DecodeOutcome where
  | ok (c : Chunk)
  | truncated
  | checksumMismatch (stored computed : Nat)
  | panic
  deriving DecidableEq

/-- Discriminator for the `ChecksumMismatch` outcome. -/
def DecodeOutcome.isChecksumMismatch : DecodeOutcome → Bool
  | .checksumMismatch _ _ => true
  | _ => false

/-- `Chunk::try_from(&[u8])`, step for step:
* `read_exact` of the 4 length bytes (EOF when fewer than 4 bytes);
* `read_exact` of the 4 type bytes (EOF when fewer than 8 bytes);
* `ChunkType::try_from` (never fails);
* the slice `&value[8..len as usize + 8]` — this indexing panics when the
  buffer holds fewer than `len + 8` bytes;
* `read_exact` of the `len` data bytes (cannot fail once the slice was in
  bounds);
* `read_exact` of the 4 CRC bytes (EOF when fewer than `len + 12` bytes);
* comparison of the stored CRC with the CRC over `&value[4..len + 8]`. -/
def chunkTryFrom (value : List Nat) : DecodeOutcome :=
  if value.length < 4 then .truncated else
  let len := beToNat (value.take 4)
  if value.length < 8 then .truncated else
  let ctype := ChunkType.fromBytes ((value.drop 4).take 4)
  if value.length < len + 8 then .panic else
  let data := (value.drop 8).take len
  if value.length < len + 12 then .truncated else
  let crcStored := beToNat ((value.drop (len + 8)).take 4)
  let computed := crc32 ((value.drop 4).take (len + 4))
  if crcStored ≠ computed then .checksumMismatch crcStored computed
  else .ok { length := len, chunktype := ctype, data := data, crc := crcStored }

/-- Flip bit `j` of the byte at index `p` of a buffer. -/
def flipBit (v : List Nat) (p j : Nat) : List Nat :=
  v.set p (v.getD p 0 ^^^ 2 ^ j)

/-! ## Algebra of the CRC state machine

The CRC update is linear over GF(2) (bitwise xor), and one shift round is
injective on 32-bit states; together these give single-bit sensitivity of
`crc32`. -/

theorem shiftRight_one_xor (a b : Nat) :
    (a ^^^ b) >>> 1 = a >>> 1 ^^^ b >>> 1 := by
  apply Nat.eq_of_testBit_eq
  intro i
  simp [Nat.testBit_shiftRight, Nat.testBit_xor]

theorem xor_pair_cancel (x a b : Nat) : (x ^^^ a) ^^^ (x ^^^ b) = a ^^^ b := by
  apply Nat.eq_of_testBit_eq
  intro i
  simp only [Nat.testBit_xor]
  cases x.testBit i <;> cases a.testBit i <;> cases b.testBit i <;> rfl

theorem xor_xor_self_left (a b : Nat) : (a ^^^ b) ^^^ a = b := by
  apply Nat.eq_of_testBit_eq
  intro i
  simp only [Nat.testBit_xor]
  cases a.testBit i <;> cases b.testBit i <;> rfl

theorem bitStep_linear (a b : Nat) :
    bitStep (a ^^^ b) = bitStep a ^^^ bitStep b := by
  have hxor : (a ^^^ b) &&& 1 = (a &&& 1) ^^^ (b &&& 1) := Nat.and_xor_distrib_right
  have ha : a &&& 1 = a % 2 := Nat.and_one_is_mod a
  have hb : b &&& 1 = b % 2 := Nat.and_one_is_mod b
  have hab : (a ^^^ b) &&& 1 = (a % 2) ^^^ (b % 2) := by rw [hxor, ha, hb]
  unfold bitStep
  rcases Nat.mod_two_eq_zero_or_one a with h1 | h1 <;>
    rcases Nat.mod_two_eq_zero_or_one b with h2 | h2 <;>
    rw [ha, hb, hab, h1, h2] <;> simp <;>
    apply Nat.eq_of_testBit_eq <;> intro i <;>
    simp only [Nat.testBit_xor, Nat.testBit_shiftRight] <;>
    cases a.testBit (1 + i) <;> cases b.testBit (1 + i) <;>
    cases CRC_POLY.testBit i <;> rfl

theorem bitStep_lt (s : Nat) (h : s < 2 ^ 32) : bitStep s < 2 ^ 32 := by
  have hs : s >>> 1 < 2 ^ 32 := by
    rw [Nat.shiftRight_eq_div_pow]
    omega
  unfold bitStep
  split
  · exact Nat.xor_lt_two_pow hs (by norm_num [CRC_POLY])
  · exact hs

theorem bitStep_eq_zero (s : Nat) (h : s < 2 ^ 32) (h0 : bitStep s = 0) :
    s = 0 := by
  have ha : s &&& 1 = s % 2 := Nat.and_one_is_mod s
  have hsr : s >>> 1 = s / 2 := by
    rw [Nat.shiftRight_eq_div_pow]
  unfold bitStep at h0
  split at h0
  · next hc =>
    have hP : s >>> 1 = CRC_POLY := Nat.xor_eq_zero.mp h0
    rw [hsr] at hP
    simp only [CRC_POLY] at hP
    omega
  · next hc =>
    rw [ha] at hc
    rw [hsr] at h0
    omega

theorem bitSteps_add (k m s : Nat) :
    bitSteps (k + m) s = bitSteps m (bitSteps k s) := by
  induction k generalizing s with
  | zero => simp [bitSteps]
  | succ k ih =>
    have : k + 1 + m = (k + m) + 1 := by omega
    rw [this]
    show bitSteps (k + m) (bitStep s) = _
    rw [ih]
    rfl

theorem bitSteps_linear (k a b : Nat) :
    bitSteps k (a ^^^ b) = bitSteps k a ^^^ bitSteps k b := by
  induction k generalizing a b with
  | zero => rfl
  | succ k ih =>
    show bitSteps k (bitStep (a ^^^ b)) = _
    rw [bitStep_linear, ih]
    rfl

theorem bitSteps_lt (k s : Nat) (h : s < 2 ^ 32) : bitSteps k s < 2 ^ 32 := by
  induction k generalizing s with
  | zero => exact h
  | succ k ih => exact ih (bitStep s) (bitStep_lt s h)

theorem bitSteps_ne_zero (k s : Nat) (h : s < 2 ^ 32) (h0 : s ≠ 0) :
    bitSteps k s ≠ 0 := by
  induction k generalizing s with
  | zero => exact h0
  | succ k ih =>
    refine ih (bitStep s) (bitStep_lt s h) ?_
    intro hz
    exact h0 (bitStep_eq_zero s h hz)

theorem byteStep_self_xor (s1 s2 b : Nat) :
    byteStep s1 b ^^^ byteStep s2 b = bitSteps 8 (s1 ^^^ s2) := by
  unfold byteStep
  rw [← bitSteps_linear]
  congr 1
  rw [Nat.xor_comm s1 (b % 256), Nat.xor_comm s2 (b % 256)]
  exact xor_pair_cancel (b % 256) s1 s2

theorem crcFold_xor (l : List Nat) (s1 s2 : Nat) :
    crcFold s1 l ^^^ crcFold s2 l = bitSteps (8 * l.length) (s1 ^^^ s2) := by
  induction l generalizing s1 s2 with
  | nil => simp [crcFold, bitSteps]
  | cons b t ih =>
    show crcFold (byteStep s1 b) t ^^^ crcFold (byteStep s2 b) t = _
    rw [ih, byteStep_self_xor, ← bitSteps_add]
    congr 1
    simp [List.length_cons]
    ring

theorem xor_two_pow_mod (b j : Nat) (hj : j < 8) :
    (b ^^^ 2 ^ j) % 256 = b % 256 ^^^ 2 ^ j := by
  have h256 : (256 : Nat) = 2 ^ 8 := by norm_num
  rw [h256]
  apply Nat.eq_of_testBit_eq
  intro i
  simp only [Nat.testBit_mod_two_pow, Nat.testBit_xor, Nat.testBit_two_pow]
  by_cases hij : i < 8
  · simp [hij]
  · have : ¬(j = i) := by omega
    simp [hij, this]

theorem crcFold_flip_ne (l : List Nat) (q j : Nat) (hq : q < l.length)
    (hj : j < 8) (s : Nat) :
    crcFold s (l.set q (l.getD q 0 ^^^ 2 ^ j)) ≠ crcFold s l := by
  induction l generalizing q s with
  | nil => simp at hq
  | cons b t ih =>
    cases q with
    | zero =>
      simp only [List.getD_cons_zero, List.set]
      show crcFold (byteStep s (b ^^^ 2 ^ j)) t ≠ crcFold (byteStep s b) t
      intro hEq
      have hzero :
          crcFold (byteStep s (b ^^^ 2 ^ j)) t ^^^ crcFold (byteStep s b) t
            = 0 := by
        rw [hEq, Nat.xor_self]
      rw [crcFold_xor] at hzero
      have hdiff : byteStep s (b ^^^ 2 ^ j) ^^^ byteStep s b
          = bitSteps 8 (2 ^ j) := by
        unfold byteStep
        rw [← bitSteps_linear]
        congr 1
        rw [xor_two_pow_mod b j hj, xor_pair_cancel]
        exact xor_xor_self_left (b % 256) (2 ^ j)
      rw [hdiff, ← bitSteps_add] at hzero
      have hlt : (2 : Nat) ^ j < 2 ^ 32 :=
        lt_of_le_of_lt (Nat.pow_le_pow_right (by norm_num) (by omega))
          (by norm_num : (2 : Nat) ^ 8 < 2 ^ 32)
      have hpos : (2 : Nat) ^ j ≠ 0 := Nat.pos_iff_ne_zero.mp (Nat.two_pow_pos j)
      exact bitSteps_ne_zero _ _ hlt hpos hzero
    | succ q =>
      simp only [List.getD_cons_succ, List.set_cons_succ]
      show crcFold (byteStep s b) (t.set q (t.getD q 0 ^^^ 2 ^ j))
          ≠ crcFold (byteStep s b) t
      exact ih q (by simpa using hq) (byteStep s b)

theorem crc32_flip_ne (l : List Nat) (q j : Nat) (hq : q < l.length)
    (hj : j < 8) :
    crc32 (l.set q (l.getD q 0 ^^^ 2 ^ j)) ≠ crc32 l := by
  unfold crc32
  intro h
  have := congrArg (fun x => x ^^^ 0xFFFFFFFF) h
  simp only [Nat.xor_assoc, Nat.xor_self, Nat.xor_zero] at this
  exact crcFold_flip_ne l q j hq hj 0xFFFFFFFF this

theorem crcFold_lt (l : List Nat) (s : Nat) (h : s < 2 ^ 32) :
    crcFold s l < 2 ^ 32 := by
  induction l generalizing s with
  | nil => exact h
  | cons b t ih =>
    show crcFold (byteStep s b) t < 2 ^ 32
    refine ih _ ?_
    unfold byteStep
    refine bitSteps_lt 8 _ (Nat.xor_lt_two_pow h ?_)
    have : b % 256 < 256 := Nat.mod_lt b (by norm_num)
    omega

theorem crc32_lt (l : List Nat) : crc32 l < 2 ^ 32 := by
  unfold crc32
  exact Nat.xor_lt_two_pow (crcFold_lt l _ (by norm_num)) (by norm_num)

/-! ## Decoding a well-framed buffer -/

/-- Evaluation of `Chunk::try_from` on a buffer framed as
`length bytes ++ middle ++ crc bytes` with a consistent length field:
only the checksum comparison remains. -/
theorem chunkTryFrom_framed (len4 mid crc4 : List Nat) (L : Nat)
    (h4 : len4.length = 4) (hc : crc4.length = 4)
    (hL : beToNat len4 = L) (hmid : mid.length = L + 4) :
    chunkTryFrom (len4 ++ (mid ++ crc4)) =
      if beToNat crc4 = crc32 mid then
        DecodeOutcome.ok
          { length := L, chunktype := ChunkType.fromBytes (mid.take 4),
            data := mid.drop 4, crc := beToNat crc4 }
      else DecodeOutcome.checksumMismatch (beToNat crc4) (crc32 mid) := by
  have hv : (len4 ++ (mid ++ crc4)).length = L + 12 := by
    simp [List.length_append, h4, hc, hmid]
    omega
  have hTake4 : (len4 ++ (mid ++ crc4)).take 4 = len4 := by
    rw [List.take_append_eq_append_take, h4,
      List.take_of_length_le (le_of_eq h4)]
    simp
  have hDrop4 : (len4 ++ (mid ++ crc4)).drop 4 = mid ++ crc4 := by
    rw [List.drop_append_eq_append_drop, h4,
      List.drop_eq_nil_of_le (le_of_eq h4)]
    simp
  have hA : ((len4 ++ (mid ++ crc4)).drop 4).take 4 = mid.take 4 := by
    rw [hDrop4, List.take_append_eq_append_take]
    have : 4 - mid.length = 0 := by omega
    rw [this]
    simp
  have hD : ((len4 ++ (mid ++ crc4)).drop 4).take (L + 4) = mid := by
    rw [hDrop4, List.take_append_eq_append_take,
      List.take_of_length_le (le_of_eq hmid)]
    have : L + 4 - mid.length = 0 := by omega
    rw [this]
    simp
  have hMidCrc : (mid ++ crc4).drop 4 = mid.drop 4 ++ crc4 := by
    rw [List.drop_append_eq_append_drop]
    have : 4 - mid.length = 0 := by omega
    rw [this]
    simp
  have hB : ((len4 ++ (mid ++ crc4)).drop 8).take L = mid.drop 4 := by
    have h8 : (len4 ++ (mid ++ crc4)).drop 8
        = ((len4 ++ (mid ++ crc4)).drop 4).drop 4 := by
      rw [List.drop_drop]
    rw [h8, hDrop4, hMidCrc, List.take_append_eq_append_take]
    have hdl : (mid.drop 4).length = L := by
      rw [List.length_drop]
      omega
    rw [List.take_of_length_le (le_of_eq hdl)]
    have : L - (mid.drop 4).length = 0 := by omega
    rw [this]
    simp
  have hC : ((len4 ++ (mid ++ crc4)).drop (L + 8)).take 4 = crc4 := by
    rw [List.drop_append_eq_append_drop, h4,
      List.drop_eq_nil_of_le (by omega : len4.length ≤ L + 8)]
    rw [List.drop_append_eq_append_drop,
      List.drop_eq_nil_of_le (by omega : mid.length ≤ L + 8 - 4)]
    have : L + 8 - 4 - mid.length = 0 := by omega
    rw [this]
    simp [List.take_of_length_le (le_of_eq hc)]
  simp only [chunkTryFrom, hv, hTake4, hL, hA, hB, hC, hD]
  rw [if_neg (by omega : ¬(L + 12 < 4)), if_neg (by omega : ¬(L + 12 < 8)),
    if_neg (by omega : ¬(L + 12 < L + 8)),
    if_neg (by omega : ¬(L + 12 < L + 12))]
  by_cases hcc : beToNat crc4 = crc32 mid
  · rw [if_neg (by simp [hcc]), if_pos hcc]
  · rw [if_pos hcc, if_neg hcc]

/-! ## Shared concrete values -/

/-- Unfolding of `Chunk::new`'s stored length, kept general so that later
rewrites never ask the kernel to evaluate a huge list. -/
theorem chunk_new_length_eq (t : ChunkType) (d : List Nat) :
    (Chunk.new t d).length = d.length % 2 ^ 32 := rfl

/-- The tag `"RuSt"`. -/
def rustType : ChunkType := ⟨82, 117, 83, 116⟩

/-- UTF-8 bytes of `"This is where your secret message will be!"`. -/
def secretMessage : List Nat :=
  [84, 104, 105, 115, 32, 105, 115, 32, 119, 104, 101, 114, 101, 32, 121,
   111, 117, 114, 32, 115, 101, 99, 114, 101, 116, 32, 109, 101, 115, 115,
   97, 103, 101, 32, 119, 105, 108, 108, 32, 98, 101, 33]

/-! ## C1: chunk decode on truncated input -/

/-- C1: the claim "decoding a chunk never panics, and a buffer shorter than
`12 + length` yields `Truncated`" fails on the code: on the 8-byte buffer
`00 00 00 01 52 75 53 74` (declared length 1, no payload bytes) the slice
`&value[8..9]` is out of bounds and `Chunk::try_from` panics instead of
returning a `Truncated` error. -/
theorem chunk_tryFrom_panics_on_truncated_input :
    chunkTryFrom [0, 0, 0, 1, 82, 117, 83, 116] = DecodeOutcome.panic := by
  decide

/-! ## C4: `ChunkType::from_str` does not check the length -/

/-- C4: the claim "`from_str` succeeds exactly on 4-byte alphabetic strings"
fails on the code: the loop never compares the string length with 4, so
`"ab"` is accepted (zero-padded) and a 5-byte alphabetic string panics on
the out-of-bounds write `bytes[4]`. -/
theorem chunkType_from_str_length_unchecked :
    ChunkType.from_str [97, 98] = FromStrOutcome.ok ⟨97, 98, 0, 0⟩ ∧
    ChunkType.from_str [97, 98, 99, 100, 101] = FromStrOutcome.panic := by
  decide

/-! ## C5: `Chunk::new` derives its fields -/

/-- C5 (counterexample): `Chunk::new` stores `data.len() as u32`, so for a
payload of `2^32` bytes the stored length (0) is not the byte count. -/
theorem chunk_new_length_truncates :
    (Chunk.new rustType (List.replicate (2 ^ 32) 0)).length
      ≠ (List.replicate (2 ^ 32) 0).length := by
  rw [chunk_new_length_eq, List.length_replicate]
  norm_num

/-- C5 (amended): `Chunk::new` never fails and derives its fields: the
length is the byte count of the payload reduced modulo `2^32` (the `as
u32` cast), the type and payload are stored verbatim, and the checksum is
the CRC-32/ISO-HDLC of the type bytes followed by the payload. -/
theorem chunk_new_derives_fields (t : ChunkType) (data : List Nat) :
    (Chunk.new t data).length = data.length % 2 ^ 32 ∧
    (Chunk.new t data).chunktype = t ∧
    (Chunk.new t data).data = data ∧
    (Chunk.new t data).crc = crc32 (t.bytes ++ data) :=
  ⟨rfl, rfl, rfl, rfl⟩

/-! ## C6: property bits of a chunk type -/

/-- C6: for every tag, the four property queries follow bit 5 (0x20) of the
corresponding byte — `is_critical`/`is_public`/`is_reserved_bit_valid`
hold iff the bit is clear in bytes 0/1/2, `is_safe_to_copy` iff it is set
in byte 3 — and `is_valid` coincides with `is_reserved_bit_valid`. -/
theorem chunkType_bit_properties (t : ChunkType) :
    (t.is_critical = true ↔ t.b0.testBit 5 = false) ∧
    (t.is_public = true ↔ t.b1.testBit 5 = false) ∧
    (t.is_reserved_bit_valid = true ↔ t.b2.testBit 5 = false) ∧
    (t.is_safe_to_copy = true ↔ t.b3.testBit 5 = true) ∧
    t.is_valid = t.is_reserved_bit_valid := by
  have key : ∀ n : Nat, (n &&& 32 == 0) = true ↔ n.testBit 5 = false := by
    intro n
    have h32 : (32 : Nat) = 2 ^ 5 := by norm_num
    rw [beq_iff_eq, h32, Nat.and_two_pow]
    cases hh : n.testBit 5 <;> simp
  have keyNe : ∀ n : Nat, (n &&& 32 != 0) = true ↔ n.testBit 5 = true := by
    intro n
    have h32 : (32 : Nat) = 2 ^ 5 := by norm_num
    rw [bne_iff_ne, h32, Nat.and_two_pow]
    cases hh : n.testBit 5 <;> simp
  exact ⟨key t.b0, key t.b1, key t.b2, keyNe t.b3, rfl⟩

/-! ## C8: the concrete vector -/

/-- C8 (counterexample): the secret message is 42 bytes, not 44, so the
chunk built from it serializes to 54 bytes with length field `0x2A`, not
to 56 bytes with length field `0x2C`. -/
theorem concrete_vector_not_as_claimed :
    secretMessage.length ≠ 44 ∧
    (Chunk.new rustType secretMessage).as_bytes.length ≠ 56 ∧
    (Chunk.new rustType secretMessage).as_bytes.take 4 ≠ [0, 0, 0, 44] := by
  decide

/-- C8 (amended): the chunk created from type `"RuSt"` and the 42-byte
payload `"This is where your secret message will be!"` serializes to
`12 + 42 = 54` bytes whose big-endian length field equals `0x0000002A`
(42) and whose CRC-32/ISO-HDLC checksum equals 2882656334. -/
theorem concrete_vector_values :
    secretMessage.length = 42 ∧
    (Chunk.new rustType secretMessage).as_bytes.length = 54 ∧
    (Chunk.new rustType secretMessage).as_bytes.take 4 = [0, 0, 0, 42] ∧
    (Chunk.new rustType secretMessage).crc = 2882656334 := by
  decide

/-! ## C2: decode after encode -/

/-- C2 (amended): for every chunk built via `Chunk::new` from a payload of
fewer than `2^32` bytes, decoding the bytes produced by `as_bytes` yields
`Ok` of a chunk equal to it in all four fields. -/
theorem chunk_decode_encode_roundtrip (t : ChunkType) (data : List Nat)
    (h : data.length < 2 ^ 32) :
    chunkTryFrom (Chunk.new t data).as_bytes
      = DecodeOutcome.ok (Chunk.new t data) := by
  have hlen : data.length % 2 ^ 32 = data.length := Nat.mod_eq_of_lt h
  have hcrc : crc32 (t.bytes ++ data) % 2 ^ 32 = crc32 (t.bytes ++ data) :=
    Nat.mod_eq_of_lt (crc32_lt _)
  have hshape : (Chunk.new t data).as_bytes
      = toBE4 data.length
          ++ ((t.bytes ++ data) ++ toBE4 (crc32 (t.bytes ++ data))) := by
    simp only [Chunk.as_bytes, Chunk.new, hlen, List.append_assoc]
  rw [hshape,
    chunkTryFrom_framed (toBE4 data.length) (t.bytes ++ data)
      (toBE4 (crc32 (t.bytes ++ data))) data.length (toBE4_length _)
      (toBE4_length _)
      (by rw [beToNat_toBE4, hlen])
      (by simp only [ChunkType.bytes, List.length_append, List.length_cons,
            List.length_nil]
          omega)]
  rw [beToNat_toBE4, hcrc, if_pos rfl]
  have htake : (t.bytes ++ data).take 4 = t.bytes := by
    simp [ChunkType.bytes]
  have hdrop : (t.bytes ++ data).drop 4 = data := by
    simp [ChunkType.bytes]
  have hfrom : ChunkType.fromBytes t.bytes = t := rfl
  rw [htake, hdrop, hfrom]
  show DecodeOutcome.ok
      { length := data.length, chunktype := t, data := data,
        crc := crc32 (t.bytes ++ data) } = _
  simp only [Chunk.new, hlen]

/-- Witness for C2 at the tag `"RuSt"` and payload `[1, 2, 3]`. -/
theorem chunk_decode_encode_roundtrip_witness :
    ([1, 2, 3] : List Nat).length < 2 ^ 32 ∧
    chunkTryFrom (Chunk.new rustType [1, 2, 3]).as_bytes
      = DecodeOutcome.ok (Chunk.new rustType [1, 2, 3]) :=
  ⟨by norm_num, chunk_decode_encode_roundtrip rustType [1, 2, 3] (by norm_num)⟩

/-! ## C3: exact checksum behaviour on long-enough buffers -/

/-- C3: on every buffer long enough for the full record (at least
`12 + length` bytes, `length` read big-endian from the first 4 bytes),
decode fails with `ChecksumMismatch` carrying the stored and the computed
value exactly when the stored 4-byte big-endian checksum differs from the
CRC-32 of the 4 type bytes followed by the payload, and otherwise returns
a chunk whose fields are exactly the parsed length, type, payload, and
the stored checksum. -/
theorem chunk_tryFrom_checksum_exact (v : List Nat)
    (h : beToNat (v.take 4) + 12 ≤ v.length) :
    (beToNat ((v.drop (beToNat (v.take 4) + 8)).take 4)
        ≠ crc32 ((v.drop 4).take (beToNat (v.take 4) + 4)) →
      chunkTryFrom v = DecodeOutcome.checksumMismatch
        (beToNat ((v.drop (beToNat (v.take 4) + 8)).take 4))
        (crc32 ((v.drop 4).take (beToNat (v.take 4) + 4)))) ∧
    (beToNat ((v.drop (beToNat (v.take 4) + 8)).take 4)
        = crc32 ((v.drop 4).take (beToNat (v.take 4) + 4)) →
      chunkTryFrom v = DecodeOutcome.ok
        { length := beToNat (v.take 4)
          chunktype := ChunkType.fromBytes ((v.drop 4).take 4)
          data := (v.drop 8).take (beToNat (v.take 4))
          crc := beToNat ((v.drop (beToNat (v.take 4) + 8)).take 4) }) := by
  constructor <;> intro hcc <;>
    simp only [chunkTryFrom] <;>
    rw [if_neg (by omega : ¬v.length < 4), if_neg (by omega : ¬v.length < 8),
      if_neg (by omega : ¬v.length < beToNat (v.take 4) + 8),
      if_neg (by omega : ¬v.length < beToNat (v.take 4) + 12)]
  · rw [if_pos hcc]
  · rw [if_neg (not_not_intro hcc)]

/-- A 12-byte record: length 0, type `"RuSt"`, and the CRC of the type
bytes alone as the stored checksum. -/
def c3buf : List Nat :=
  [0, 0, 0, 0, 82, 117, 83, 116] ++ toBE4 (crc32 [82, 117, 83, 116])

/-- Witness for C3 at a valid zero-payload record. -/
theorem chunk_tryFrom_checksum_exact_witness :
    beToNat (c3buf.take 4) + 12 ≤ c3buf.length ∧
    chunkTryFrom c3buf = DecodeOutcome.ok
      { length := 0, chunktype := rustType, data := [],
        crc := crc32 [82, 117, 83, 116] } :=
  ⟨by decide, (chunk_tryFrom_checksum_exact c3buf (by decide)).2 (by decide)⟩

/-! ## Decoding a buffer whose length field reads zero -/

/-- Evaluation of `Chunk::try_from` when the first 8 bytes are a zero
length field followed by the `"RuSt"` type bytes: the parsed length is 0,
so the stored checksum is read from bytes 8..12 — wherever they came
from — and the computed checksum covers only the type bytes. -/
theorem chunkTryFrom_len0 (rest : List Nat) :
    chunkTryFrom ([0, 0, 0, 0] ++ ([82, 117, 83, 116] ++ rest)) =
      if 4 ≤ rest.length then
        (if beToNat (rest.take 4) = crc32 [82, 117, 83, 116] then
          DecodeOutcome.ok
            { length := 0, chunktype := rustType, data := [],
              crc := beToNat (rest.take 4) }
        else
          DecodeOutcome.checksumMismatch (beToNat (rest.take 4))
            (crc32 [82, 117, 83, 116]))
      else DecodeOutcome.truncated := by
  have hvlen : ([0, 0, 0, 0] ++ ([82, 117, 83, 116] ++ rest)).length
      = 8 + rest.length := by
    simp [List.length_append]
    omega
  have htake : ([0, 0, 0, 0] ++ ([82, 117, 83, 116] ++ rest)).take 4
      = [0, 0, 0, 0] := rfl
  have hbe0 : beToNat [0, 0, 0, 0] = 0 := rfl
  have hdrop4 : ([0, 0, 0, 0] ++ ([82, 117, 83, 116] ++ rest)).drop 4
      = [82, 117, 83, 116] ++ rest := rfl
  have hdrop8 : ([0, 0, 0, 0] ++ ([82, 117, 83, 116] ++ rest)).drop 8
      = rest := rfl
  simp only [chunkTryFrom, htake, hbe0, hvlen, hdrop4, hdrop8]
  rw [if_neg (by omega : ¬8 + rest.length < 4),
    if_neg (by omega : ¬8 + rest.length < 8),
    if_neg (by omega : ¬8 + rest.length < 0 + 8)]
  by_cases hr : 4 ≤ rest.length
  · rw [if_neg (by omega : ¬8 + rest.length < 0 + 12), if_pos hr]
    have ht4 : ([82, 117, 83, 116] ++ rest).take (0 + 4)
        = [82, 117, 83, 116] := rfl
    have hd : ([82, 117, 83, 116] ++ rest).take 4 = [82, 117, 83, 116] := rfl
    have hdreset : rest.drop (0 + 8) = rest.drop 8 := rfl
    simp only [ht4, hd]
    by_cases hcc : beToNat (rest.take (0 + 8 - 8 + 4))
        = crc32 [82, 117, 83, 116]
    all_goals {
      first
      | (rw [if_neg (not_not_intro (by simpa using hcc)), if_pos (by simpa using hcc)]
         rfl)
      | (rw [if_pos (by simpa using hcc), if_neg (by simpa using hcc)])
    }
  · rw [if_pos (by omega : 8 + rest.length < 0 + 12), if_neg hr]

/-- C2 (counterexample): for a payload of `2^32` zero bytes the stored
length field wraps to 0 (`as u32`), and decoding the chunk's own encoding
does not return the chunk: the parsed record has length 0 and the stored
checksum is read from the first payload bytes, so decode reports a
checksum mismatch instead of `Ok` of the original chunk. -/
theorem chunk_roundtrip_fails_at_u32_overflow :
    chunkTryFrom
        (Chunk.as_bytes (Chunk.new rustType (List.replicate (2 ^ 32) 0)))
      ≠ DecodeOutcome.ok (Chunk.new rustType (List.replicate (2 ^ 32) 0)) := by
  have hmod : (List.replicate (2 ^ 32) (0 : Nat)).length % 2 ^ 32 = 0 := by
    rw [List.length_replicate]
    norm_num
  have h0 : toBE4 0 = [0, 0, 0, 0] := rfl
  have hrb : rustType.bytes = [82, 117, 83, 116] := rfl
  have hshape :
      Chunk.as_bytes (Chunk.new rustType (List.replicate (2 ^ 32) 0))
        = [0, 0, 0, 0] ++ ([82, 117, 83, 116] ++
            (List.replicate (2 ^ 32) 0 ++
              toBE4 (crc32 (rustType.bytes ++ List.replicate (2 ^ 32) 0)))) := by
    simp only [Chunk.as_bytes, Chunk.new, hmod, h0, hrb, List.append_assoc]
  rw [hshape, chunkTryFrom_len0]
  have hrlen : (List.replicate (2 ^ 32) (0 : Nat) ++
      toBE4 (crc32 (rustType.bytes ++ List.replicate (2 ^ 32) 0))).length
      = 2 ^ 32 + 4 := by
    rw [List.length_append, List.length_replicate, toBE4_length]
  rw [if_pos (by rw [hrlen]; omega)]
  have htr : (List.replicate (2 ^ 32) (0 : Nat) ++
      toBE4 (crc32 (rustType.bytes ++ List.replicate (2 ^ 32) 0))).take 4
      = [0, 0, 0, 0] := by
    rw [List.take_append_eq_append_take, List.length_replicate,
      List.take_replicate]
    have h1 : (4 : Nat) ⊓ 2 ^ 32 = 4 := by norm_num
    have h2 : (4 : Nat) - 2 ^ 32 = 0 := by norm_num
    rw [h1, h2, List.take_zero, List.append_nil]
    rfl
  rw [htr]
  rw [if_neg (by decide : ¬beToNat [0, 0, 0, 0] = crc32 [82, 117, 83, 116])]
  intro hcon
  exact DecodeOutcome.noConfusion hcon

/-! ## C7: single-bit sensitivity of decode -/

/-- C7 (amended): for every chunk built via `Chunk::new` from a payload of
fewer than `2^32` bytes, flipping any single bit inside the type or
payload region of its encoding (byte position `4 ≤ p < 8 + payload
length`, bit `j < 8`) and decoding the modified buffer fails with
`ChecksumMismatch`. -/
theorem chunk_flip_yields_checksum_mismatch (t : ChunkType) (data : List Nat)
    (p j : Nat) (h32 : data.length < 2 ^ 32) (hp4 : 4 ≤ p)
    (hp : p < 8 + data.length) (hj : j < 8) :
    (chunkTryFrom
        (flipBit (Chunk.as_bytes (Chunk.new t data)) p j)).isChecksumMismatch
      = true := by
  have hlen : data.length % 2 ^ 32 = data.length := Nat.mod_eq_of_lt h32
  have hmidlen : (t.bytes ++ data).length = data.length + 4 := by
    simp only [ChunkType.bytes, List.length_append, List.length_cons,
      List.length_nil]
    omega
  have hq : p - 4 < (t.bytes ++ data).length := by
    rw [hmidlen]
    omega
  have hshape : Chunk.as_bytes (Chunk.new t data)
      = toBE4 data.length
          ++ ((t.bytes ++ data) ++ toBE4 (crc32 (t.bytes ++ data))) := by
    simp only [Chunk.as_bytes, Chunk.new, hlen, List.append_assoc]
  have hgd : (Chunk.as_bytes (Chunk.new t data)).getD p 0
      = (t.bytes ++ data).getD (p - 4) 0 := by
    rw [hshape, List.getD_append_right _ _ _ p (by rw [toBE4_length]; omega),
      toBE4_length, List.getD_append _ _ _ _ hq]
  have hset : flipBit (Chunk.as_bytes (Chunk.new t data)) p j
      = toBE4 data.length
          ++ ((t.bytes ++ data).set (p - 4)
                ((t.bytes ++ data).getD (p - 4) 0 ^^^ 2 ^ j)
              ++ toBE4 (crc32 (t.bytes ++ data))) := by
    show (Chunk.as_bytes (Chunk.new t data)).set p
        ((Chunk.as_bytes (Chunk.new t data)).getD p 0 ^^^ 2 ^ j) = _
    rw [hgd, hshape, List.set_append]
    simp only [toBE4_length]
    rw [if_neg (by omega : ¬p < 4), List.set_append]
    rw [if_pos hq]
  rw [hset,
    chunkTryFrom_framed (toBE4 data.length)
      ((t.bytes ++ data).set (p - 4)
        ((t.bytes ++ data).getD (p - 4) 0 ^^^ 2 ^ j))
      (toBE4 (crc32 (t.bytes ++ data))) data.length (toBE4_length _)
      (toBE4_length _) (by rw [beToNat_toBE4, hlen])
      (by rw [List.length_set, hmidlen])]
  rw [beToNat_toBE4, Nat.mod_eq_of_lt (crc32_lt _),
    if_neg (fun hEq =>
      crc32_flip_ne (t.bytes ++ data) (p - 4) j hq hj hEq.symm)]
  rfl

/-- Witness for C7: flip bit 0 of the first payload byte of the chunk with
type `"RuSt"` and payload `[1, 2, 3]`. -/
theorem chunk_flip_yields_checksum_mismatch_witness :
    ([1, 2, 3] : List Nat).length < 2 ^ 32 ∧ 4 ≤ 8 ∧
    8 < 8 + ([1, 2, 3] : List Nat).length ∧ 0 < 8 ∧
    (chunkTryFrom
        (flipBit (Chunk.as_bytes (Chunk.new rustType [1, 2, 3]))
          8 0)).isChecksumMismatch = true :=
  ⟨by norm_num, by norm_num, by norm_num, by norm_num,
    chunk_flip_yields_checksum_mismatch rustType [1, 2, 3] 8 0 (by norm_num)
      (by norm_num) (by norm_num) (by norm_num)⟩

/-- Specialisation of `chunkTryFrom_len0` to a matching stored checksum,
phrased with hypotheses so that instantiating it at a huge buffer never
asks the elaborator or kernel to evaluate the buffer. -/
theorem chunkTryFrom_len0_ok (rest : List Nat) (h4 : 4 ≤ rest.length)
    (hcrc : beToNat (rest.take 4) = crc32 [82, 117, 83, 116]) :
    chunkTryFrom ([0, 0, 0, 0] ++ ([82, 117, 83, 116] ++ rest))
      = DecodeOutcome.ok
          { length := 0, chunktype := rustType, data := [],
            crc := beToNat (rest.take 4) } := by
  rw [chunkTryFrom_len0, if_pos h4, if_pos hcrc]

/-- A buffer starting with four explicit bytes holds at least four bytes. -/
theorem four_le_length_append (B : List Nat) (a b c d : Nat) :
    4 ≤ (([a, b, c, d] : List Nat) ++ B).length := by
  rw [List.length_append]
  exact Nat.le_add_right 4 B.length

/-- Taking four bytes from a buffer starting with four explicit bytes. -/
theorem take_four_append (B : List Nat) (a b c d : Nat) :
    (([a, b, c, d] : List Nat) ++ B).take 4 = [a, b, c, d] := rfl

/-- C7 (counterexample): the claim fails for chunks whose payload reaches
`2^32` bytes.  Take the payload `[212, 132, 9, 60]` (the big-endian CRC of
the `"RuSt"` type bytes) followed by `2^32 - 4` zero bytes: the length
field of the encoding wraps to 0, so decode parses an empty payload whose
stored checksum is read from payload bytes 0..4.  Flipping bit 0 of byte
12 of the encoding — inside the payload region — leaves that parse
untouched, and decoding the flipped buffer returns `Ok`, not
`ChecksumMismatch`. -/
theorem chunk_flip_not_mismatch_at_overflow :
    (chunkTryFrom
        (flipBit
          (Chunk.as_bytes (Chunk.new rustType
            ([212, 132, 9, 60] ++ List.replicate (2 ^ 32 - 4) 0)))
          12 0)).isChecksumMismatch = false := by
  have hDlen : (([212, 132, 9, 60] : List Nat)
      ++ List.replicate (2 ^ 32 - 4) 0).length = 2 ^ 32 := by
    rw [List.length_append, List.length_replicate]
    norm_num
  have hmod : (([212, 132, 9, 60] : List Nat)
      ++ List.replicate (2 ^ 32 - 4) 0).length % 2 ^ 32 = 0 := by
    rw [hDlen]
    norm_num
  have h0 : toBE4 0 = [0, 0, 0, 0] := rfl
  have hrb : rustType.bytes = [82, 117, 83, 116] := rfl
  have hshape : Chunk.as_bytes (Chunk.new rustType
      ([212, 132, 9, 60] ++ List.replicate (2 ^ 32 - 4) 0))
      = [0, 0, 0, 0] ++ ([82, 117, 83, 116] ++ ([212, 132, 9, 60] ++
          (List.replicate (2 ^ 32 - 4) 0 ++
            toBE4 (crc32 (rustType.bytes
              ++ ([212, 132, 9, 60] ++ List.replicate (2 ^ 32 - 4) 0)))))) := by
    simp only [Chunk.as_bytes, Chunk.new, hmod, h0, hrb, List.append_assoc]
  have hgd : (Chunk.as_bytes (Chunk.new rustType
      ([212, 132, 9, 60] ++ List.replicate (2 ^ 32 - 4) 0))).getD 12 0
      = 0 := by
    rw [hshape]
    rfl
  have hset : flipBit (Chunk.as_bytes (Chunk.new rustType
        ([212, 132, 9, 60] ++ List.replicate (2 ^ 32 - 4) 0))) 12 0
      = [0, 0, 0, 0] ++ ([82, 117, 83, 116] ++ ([212, 132, 9, 60] ++
          ((1 : Nat) :: (List.replicate (2 ^ 32 - 5) 0 ++
            toBE4 (crc32 (rustType.bytes
              ++ ([212, 132, 9, 60]
                ++ List.replicate (2 ^ 32 - 4) 0))))))) := by
    simp only [flipBit]
    rw [hgd, hshape]
    rfl
  have hrlen : 4 ≤ (([212, 132, 9, 60] : List Nat) ++
      ((1 : Nat) :: (List.replicate (2 ^ 32 - 5) 0 ++
        toBE4 (crc32 (rustType.bytes
          ++ ([212, 132, 9, 60]
            ++ List.replicate (2 ^ 32 - 4) 0)))))).length :=
    four_le_length_append _ _ _ _ _
  have hcrc : beToNat ((([212, 132, 9, 60] : List Nat) ++
      ((1 : Nat) :: (List.replicate (2 ^ 32 - 5) 0 ++
        toBE4 (crc32 (rustType.bytes
          ++ ([212, 132, 9, 60]
            ++ List.replicate (2 ^ 32 - 4) 0)))))).take 4)
      = crc32 [82, 117, 83, 116] := by
    simp only [take_four_append]
    decide
  rw [hset, chunkTryFrom_len0_ok _ hrlen hcrc]
  rfl

/-! ## `Png` container (`src/png.rs` is not among the sources) -/

/-- The fixed 8-byte PNG signature `89 50 4E 47 0D 0A 1A 0A`. -/
def PNG_SIGNATURE : List Nat := [137, 80, 78, 71, 13, 10, 26, 10]

/-- Outcome of container decoding: the chunk sequence, a signature
failure, or a propagated chunk-decode failure. -/
inductive PngOutcome where
  | ok (chunks : List Chunk)
  | badSignature
  | chunkError
  deriving DecidableEq

/-- Modelled from the spec: `src/png.rs` is missing from the sources (only
`main.rs` calls `Png::try_from` and friends), so the chunk loop of
container decoding follows spec §4.3 — repeatedly decode chunks from the
remainder until the buffer is exhausted, each chunk consuming its
`12 + length` bytes, propagating any chunk-decode failure as a fatal
parse error. -/
def pngChunksLoop (v : List Nat) : PngOutcome :=
  if _h : v.length = 0 then .ok []
  else
    match chunkTryFrom v with
    | .ok c =>
      match pngChunksLoop (v.drop (12 + c.length)) with
      | .ok cs => .ok (c :: cs)
      | e => e
    | _ => .chunkError
termination_by v.length
decreasing_by
  simp only [List.length_drop]
  omega

/-- Modelled from the spec: `Png::try_from` verifies that the first 8
bytes equal the fixed signature, failing with `BadSignature` otherwise,
and then decodes chunks from the remainder. -/
def pngTryFrom (v : List Nat) : PngOutcome :=
  if v.take 8 = PNG_SIGNATURE then pngChunksLoop (v.drop 8)
  else .badSignature

/-- C9: for every buffer whose first 8 bytes are not exactly
`89 50 4E 47 0D 0A 1A 0A`, container decode fails with `BadSignature`
regardless of the remaining content, and no container is produced. -/
theorem png_tryFrom_badSignature (v : List Nat)
    (h : v.take 8 ≠ PNG_SIGNATURE) :
    pngTryFrom v = PngOutcome.badSignature := by
  simp only [pngTryFrom, if_neg h]

/-- Witness for C9 at a 10-byte buffer with a wrong first byte. -/
theorem png_tryFrom_badSignature_witness :
    ([1, 80, 78, 71, 13, 10, 26, 10, 5, 5] : List Nat).take 8
      ≠ PNG_SIGNATURE ∧
    pngTryFrom [1, 80, 78, 71, 13, 10, 26, 10, 5, 5]
      = PngOutcome.badSignature :=
  ⟨by decide, png_tryFrom_badSignature _ (by decide)⟩

/-! ## UTF-8 validation (`Display for ChunkType` via `std::str::from_utf8`)

`std::str::from_utf8` accepts exactly the well-formed UTF-8 byte
sequences; `run_utf8_validation` in Rust's core library classifies each
sequence by its first byte and checks the continuation bytes, with the
second-byte ranges excluding overlong forms, surrogates, and code points
above U+10FFFF. -/

/-- A UTF-8 continuation byte: `0x80..=0xBF`. -/
def utf8Cont (b : Nat) : Bool := decide (128 ≤ b ∧ b ≤ 191)

/-- First-two-byte check of a 3-byte sequence, as in
`run_utf8_validation`: `(0xE0, 0xA0..=0xBF)`, `(0xE1..=0xEC, 0x80..=0xBF)`,
`(0xED, 0x80..=0x9F)`, `(0xEE..=0xEF, 0x80..=0xBF)`. -/
def utf8Head3 (b c : Nat) : Bool :=
  decide ((b = 224 ∧ 160 ≤ c ∧ c ≤ 191) ∨
    (225 ≤ b ∧ b ≤ 236 ∧ 128 ≤ c ∧ c ≤ 191) ∨
    (b = 237 ∧ 128 ≤ c ∧ c ≤ 159) ∨
    (238 ≤ b ∧ b ≤ 239 ∧ 128 ≤ c ∧ c ≤ 191))

/-- First-two-byte check of a 4-byte sequence, as in
`run_utf8_validation`: `(0xF0, 0x90..=0xBF)`, `(0xF1..=0xF3, 0x80..=0xBF)`,
`(0xF4, 0x80..=0x8F)`. -/
def utf8Head4 (b c : Nat) : Bool :=
  decide ((b = 240 ∧ 144 ≤ c ∧ c ≤ 191) ∨
    (241 ≤ b ∧ b ≤ 243 ∧ 128 ≤ c ∧ c ≤ 191) ∨
    (b = 244 ∧ 128 ≤ c ∧ c ≤ 143))

/-- The UTF-8 validity check of `std::str::from_utf8`: 1-byte sequences
`0x00..=0x7F`, 2-byte leads `0xC2..=0xDF`, 3-byte leads `0xE0..=0xEF`,
4-byte leads `0xF0..=0xF4`; anything else rejects. -/
def utf8Valid : List Nat → Bool
  | [] => true
  | b :: rest =>
    if b ≤ 127 then utf8Valid rest
    else if 194 ≤ b ∧ b ≤ 223 then
      match rest with
      | c :: rest2 => utf8Cont c && utf8Valid rest2
      | [] => false
    else if 224 ≤ b ∧ b ≤ 239 then
      match rest with
      | c :: d :: rest3 => utf8Head3 b c && utf8Cont d && utf8Valid rest3
      | _ => false
    else if 240 ≤ b ∧ b ≤ 244 then
      match rest with
      | c :: d :: e :: rest4 =>
        utf8Head4 b c && utf8Cont d && utf8Cont e && utf8Valid rest4
      | _ => false
    else false

/-- One-step unfolding of `utf8Valid` on a cons cell, independent of the
shape of the tail. -/
theorem utf8Valid_cons (b : Nat) (rest : List Nat) :
    utf8Valid (b :: rest) =
      (if b ≤ 127 then utf8Valid rest
      else if 194 ≤ b ∧ b ≤ 223 then
        match rest with
        | c :: rest2 => utf8Cont c && utf8Valid rest2
        | [] => false
      else if 224 ≤ b ∧ b ≤ 239 then
        match rest with
        | c :: d :: rest3 => utf8Head3 b c && utf8Cont d && utf8Valid rest3
        | _ => false
      else if 240 ≤ b ∧ b ≤ 244 then
        match rest with
        | c :: d :: e :: rest4 =>
          utf8Head4 b c && utf8Cont d && utf8Cont e && utf8Valid rest4
        | _ => false
      else false) := by
  cases rest with
  | nil => rfl
  | cons c r2 =>
    cases r2 with
    | nil => rfl
    | cons d r3 =>
      cases r3 with
      | nil => rfl
      | cons e r4 => rfl

/-- A Unicode scalar value: below U+110000 and not a surrogate. -/
def validScalar (u : Nat) : Prop :=
  u < 1114112 ∧ ¬(55296 ≤ u ∧ u ≤ 57343)

instance (u : Nat) : Decidable (validScalar u) := by
  unfold validScalar
  infer_instance

/-- The UTF-8 encoding of one scalar value. -/
def utf8EncodeChar (u : Nat) : List Nat :=
  if u ≤ 127 then [u]
  else if u ≤ 2047 then [192 + u / 64, 128 + u % 64]
  else if u ≤ 65535 then [224 + u / 4096, 128 + u / 64 % 64, 128 + u % 64]
  else [240 + u / 262144, 128 + u / 4096 % 64, 128 + u / 64 % 64,
    128 + u % 64]

/-- A byte list is UTF-8 iff it is the encoding of some sequence of
Unicode scalar values. -/
def IsUtf8 (l : List Nat) : Prop :=
  ∃ us : List Nat, (∀ u ∈ us, validScalar u) ∧
    l = (us.map utf8EncodeChar).flatten

/-- Prepending the encoding of one scalar value preserves the validity
check of the remainder. -/
theorem utf8Valid_encode_append (u : Nat) (hu : validScalar u)
    (rest : List Nat) :
    utf8Valid (utf8EncodeChar u ++ rest) = utf8Valid rest := by
  obtain ⟨hmax, hsur⟩ := hu
  by_cases h1 : u ≤ 127
  · simp only [utf8EncodeChar, if_pos h1, List.cons_append, List.nil_append]
    rw [utf8Valid_cons, if_pos h1]
  · by_cases h2 : u ≤ 2047
    · simp only [utf8EncodeChar, if_neg h1, if_pos h2, List.cons_append,
        List.nil_append]
      rw [utf8Valid_cons, if_neg (by omega), if_pos (by omega :
        194 ≤ 192 + u / 64 ∧ 192 + u / 64 ≤ 223)]
      show (utf8Cont (128 + u % 64) && utf8Valid rest) = utf8Valid rest
      have hc : utf8Cont (128 + u % 64) = true := by
        simp only [utf8Cont, decide_eq_true_eq]
        omega
      rw [hc, Bool.true_and]
    · by_cases h3 : u ≤ 65535
      · simp only [utf8EncodeChar, if_neg h1, if_neg h2, if_pos h3,
          List.cons_append, List.nil_append]
        rw [utf8Valid_cons, if_neg (by omega), if_neg (by omega), if_pos
          (by omega : 224 ≤ 224 + u / 4096 ∧ 224 + u / 4096 ≤ 239)]
        show (utf8Head3 (224 + u / 4096) (128 + u / 64 % 64)
            && utf8Cont (128 + u % 64) && utf8Valid rest) = utf8Valid rest
        have hh : utf8Head3 (224 + u / 4096) (128 + u / 64 % 64) = true := by
          simp only [utf8Head3, decide_eq_true_eq]
          omega
        have hc : utf8Cont (128 + u % 64) = true := by
          simp only [utf8Cont, decide_eq_true_eq]
          omega
        rw [hh, hc, Bool.true_and, Bool.true_and]
      · simp only [utf8EncodeChar, if_neg h1, if_neg h2, if_neg h3,
          List.cons_append, List.nil_append]
        rw [utf8Valid_cons, if_neg (by omega), if_neg (by omega),
          if_neg (by omega), if_pos (by omega :
            240 ≤ 240 + u / 262144 ∧ 240 + u / 262144 ≤ 244)]
        show (utf8Head4 (240 + u / 262144) (128 + u / 4096 % 64)
            && utf8Cont (128 + u / 64 % 64) && utf8Cont (128 + u % 64)
            && utf8Valid rest) = utf8Valid rest
        have hh : utf8Head4 (240 + u / 262144) (128 + u / 4096 % 64)
            = true := by
          simp only [utf8Head4, decide_eq_true_eq]
          omega
        have hc1 : utf8Cont (128 + u / 64 % 64) = true := by
          simp only [utf8Cont, decide_eq_true_eq]
          omega
        have hc2 : utf8Cont (128 + u % 64) = true := by
          simp only [utf8Cont, decide_eq_true_eq]
          omega
        rw [hh, hc1, hc2, Bool.true_and, Bool.true_and, Bool.true_and]

/-- The validity check accepts every encoded scalar sequence. -/
theorem utf8Valid_of_encode (us : List Nat) (h : ∀ u ∈ us, validScalar u) :
    utf8Valid ((us.map utf8EncodeChar).flatten) = true := by
  induction us with
  | nil => rfl
  | cons u t ih =>
    rw [List.map_cons, List.flatten_cons,
      utf8Valid_encode_append u (h u (List.mem_cons_self u t))]
    exact ih (fun x hx => h x (List.mem_cons_of_mem u hx))

/-- Every byte list accepted by the validity check is the encoding of a
scalar sequence (strong induction on the length). -/
theorem isUtf8_of_utf8Valid_aux :
    ∀ n l, l.length ≤ n → utf8Valid l = true → IsUtf8 l := by
  intro n
  induction n with
  | zero =>
    intro l hl _
    have hnil : l = [] := List.eq_nil_of_length_eq_zero (by omega)
    subst hnil
    exact ⟨[], by simp, by simp⟩
  | succ n ih =>
    intro l hl hv
    cases l with
    | nil => exact ⟨[], by simp, by simp⟩
    | cons b rest =>
      rw [utf8Valid_cons] at hv
      by_cases h1 : b ≤ 127
      · rw [if_pos h1] at hv
        obtain ⟨us, hval, heq⟩ := ih rest
          (by simp only [List.length_cons] at hl; omega) hv
        refine ⟨b :: us, ?_, ?_⟩
        · intro u hu
          rcases List.mem_cons.mp hu with h | h
          · subst h
            exact ⟨by omega, by omega⟩
          · exact hval u h
        · rw [List.map_cons, List.flatten_cons]
          have henc : utf8EncodeChar b = [b] := by
            simp only [utf8EncodeChar, if_pos h1]
          rw [henc, ← heq]
          rfl
      · rw [if_neg h1] at hv
        by_cases h2 : 194 ≤ b ∧ b ≤ 223
        · rw [if_pos h2] at hv
          cases rest with
          | nil => exact Bool.noConfusion (show false = true from hv)
          | cons c rest2 =>
            have hv2 : (utf8Cont c && utf8Valid rest2) = true := hv
            rw [Bool.and_eq_true] at hv2
            obtain ⟨hcB, hvr⟩ := hv2
            have hc : 128 ≤ c ∧ c ≤ 191 := by
              simpa [utf8Cont, decide_eq_true_eq] using hcB
            obtain ⟨us, hval, heq⟩ := ih rest2
              (by simp only [List.length_cons] at hl; omega) hvr
            refine ⟨((b - 194) * 64 + 128 + (c - 128)) :: us, ?_, ?_⟩
            · intro u hu
              rcases List.mem_cons.mp hu with h | h
              · subst h
                exact ⟨by omega, by omega⟩
              · exact hval u h
            · rw [List.map_cons, List.flatten_cons]
              have henc : utf8EncodeChar ((b - 194) * 64 + 128 + (c - 128))
                  = [b, c] := by
                simp only [utf8EncodeChar]
                rw [if_neg (by omega), if_pos (by omega)]
                have e1 : 192 + ((b - 194) * 64 + 128 + (c - 128)) / 64
                    = b := by omega
                have e2 : 128 + ((b - 194) * 64 + 128 + (c - 128)) % 64
                    = c := by omega
                rw [e1, e2]
              rw [henc, ← heq]
              rfl
        · rw [if_neg h2] at hv
          by_cases h3 : 224 ≤ b ∧ b ≤ 239
          · rw [if_pos h3] at hv
            cases rest with
            | nil => exact Bool.noConfusion (show false = true from hv)
            | cons c rest2 =>
              cases rest2 with
              | nil => exact Bool.noConfusion (show false = true from hv)
              | cons d rest3 =>
                have hv2 : (utf8Head3 b c && utf8Cont d
                    && utf8Valid rest3) = true := hv
                rw [Bool.and_eq_true, Bool.and_eq_true] at hv2
                obtain ⟨⟨hhB, hdB⟩, hvr⟩ := hv2
                have hh : (b = 224 ∧ 160 ≤ c ∧ c ≤ 191) ∨
                    (225 ≤ b ∧ b ≤ 236 ∧ 128 ≤ c ∧ c ≤ 191) ∨
                    (b = 237 ∧ 128 ≤ c ∧ c ≤ 159) ∨
                    (238 ≤ b ∧ b ≤ 239 ∧ 128 ≤ c ∧ c ≤ 191) := by
                  simpa [utf8Head3, decide_eq_true_eq] using hhB
                have hd : 128 ≤ d ∧ d ≤ 191 := by
                  simpa [utf8Cont, decide_eq_true_eq] using hdB
                obtain ⟨us, hval, heq⟩ := ih rest3
                  (by simp only [List.length_cons] at hl; omega) hvr
                refine ⟨((b - 224) * 4096 + (c - 128) * 64 + (d - 128))
                    :: us, ?_, ?_⟩
                · intro u hu
                  rcases List.mem_cons.mp hu with h | h
                  · subst h
                    exact ⟨by omega, by omega⟩
                  · exact hval u h
                · rw [List.map_cons, List.flatten_cons]
                  have henc : utf8EncodeChar
                      ((b - 224) * 4096 + (c - 128) * 64 + (d - 128))
                      = [b, c, d] := by
                    simp only [utf8EncodeChar]
                    rw [if_neg (by omega), if_neg (by omega),
                      if_pos (by omega)]
                    have e1 : 224 + ((b - 224) * 4096 + (c - 128) * 64
                        + (d - 128)) / 4096 = b := by omega
                    have e2 : 128 + ((b - 224) * 4096 + (c - 128) * 64
                        + (d - 128)) / 64 % 64 = c := by omega
                    have e3 : 128 + ((b - 224) * 4096 + (c - 128) * 64
                        + (d - 128)) % 64 = d := by omega
                    rw [e1, e2, e3]
                  rw [henc, ← heq]
                  rfl
          · rw [if_neg h3] at hv
            by_cases h4 : 240 ≤ b ∧ b ≤ 244
            · rw [if_pos h4] at hv
              cases rest with
              | nil => exact Bool.noConfusion (show false = true from hv)
              | cons c rest2 =>
                cases rest2 with
                | nil => exact Bool.noConfusion (show false = true from hv)
                | cons d rest3 =>
                  cases rest3 with
                  | nil => exact Bool.noConfusion (show false = true from hv)
                  | cons e rest4 =>
                    have hv2 : (utf8Head4 b c && utf8Cont d && utf8Cont e
                        && utf8Valid rest4) = true := hv
                    rw [Bool.and_eq_true, Bool.and_eq_true,
                      Bool.and_eq_true] at hv2
                    obtain ⟨⟨⟨hhB, hdB⟩, heB⟩, hvr⟩ := hv2
                    have hh : (b = 240 ∧ 144 ≤ c ∧ c ≤ 191) ∨
                        (241 ≤ b ∧ b ≤ 243 ∧ 128 ≤ c ∧ c ≤ 191) ∨
                        (b = 244 ∧ 128 ≤ c ∧ c ≤ 143) := by
                      simpa [utf8Head4, decide_eq_true_eq] using hhB
                    have hd : 128 ≤ d ∧ d ≤ 191 := by
                      simpa [utf8Cont, decide_eq_true_eq] using hdB
                    have he : 128 ≤ e ∧ e ≤ 191 := by
                      simpa [utf8Cont, decide_eq_true_eq] using heB
                    obtain ⟨us, hval, heq⟩ := ih rest4
                      (by simp only [List.length_cons] at hl; omega) hvr
                    refine ⟨((b - 240) * 262144 + (c - 128) * 4096
                        + (d - 128) * 64 + (e - 128)) :: us, ?_, ?_⟩
                    · intro u hu
                      rcases List.mem_cons.mp hu with h | h
                      · subst h
                        exact ⟨by omega, by omega⟩
                      · exact hval u h
                    · rw [List.map_cons, List.flatten_cons]
                      have henc : utf8EncodeChar ((b - 240) * 262144
                          + (c - 128) * 4096 + (d - 128) * 64 + (e - 128))
                          = [b, c, d, e] := by
                        simp only [utf8EncodeChar]
                        rw [if_neg (by omega), if_neg (by omega),
                          if_neg (by omega)]
                        have e1 : 240 + ((b - 240) * 262144
                            + (c - 128) * 4096 + (d - 128) * 64
                            + (e - 128)) / 262144 = b := by omega
                        have e2 : 128 + ((b - 240) * 262144
                            + (c - 128) * 4096 + (d - 128) * 64
                            + (e - 128)) / 4096 % 64 = c := by omega
                        have e3 : 128 + ((b - 240) * 262144
                            + (c - 128) * 4096 + (d - 128) * 64
                            + (e - 128)) / 64 % 64 = d := by omega
                        have e4 : 128 + ((b - 240) * 262144
                            + (c - 128) * 4096 + (d - 128) * 64
                            + (e - 128)) % 64 = e := by omega
                        rw [e1, e2, e3, e4]
                      rw [henc, ← heq]
                      rfl
            · rw [if_neg h4] at hv
              exact Bool.noConfusion hv

/-- `Display for ChunkType`: `std::str::from_utf8(&self.bytes)` — on `Ok`
the bytes are written out as text (the rendering's UTF-8 bytes are exactly
the tag's bytes), on `Err` the formatter fails with `fmt::Error`. -/
def ChunkType.render (t : ChunkType) : Option (List Nat) :=
  if utf8Valid t.bytes then some t.bytes else none

/-- C10: the textual rendering of a tag succeeds exactly on tags whose 4
bytes form a valid UTF-8 sequence — also for tags built via `fromBytes`
from non-alphabetic bytes, which render as those characters — and fails
exactly when the bytes are not valid UTF-8. -/
theorem chunkType_render_utf8 (t : ChunkType) :
    (IsUtf8 t.bytes → t.render = some t.bytes) ∧
    (¬IsUtf8 t.bytes → t.render = none) := by
  constructor
  · intro h
    obtain ⟨us, hval, heq⟩ := h
    have hvalid : utf8Valid t.bytes = true := by
      rw [heq]
      exact utf8Valid_of_encode us hval
    simp [ChunkType.render, hvalid]
  · intro h
    have hvalid : utf8Valid t.bytes = false := by
      cases hval : utf8Valid t.bytes
      · rfl
      · exact absurd
          (isUtf8_of_utf8Valid_aux t.bytes.length t.bytes (le_refl _) hval) h
    simp [ChunkType.render, hvalid]

/-- Witness for C10 at the tag `"Ru1t"` (built from bytes with a digit,
hence not constructible via `from_str`): it renders as those four
characters. -/
theorem chunkType_render_utf8_witness :
    IsUtf8 (ChunkType.fromBytes [82, 117, 49, 116]).bytes ∧
    (ChunkType.fromBytes [82, 117, 49, 116]).render
      = some [82, 117, 49, 116] := by
  have hU : IsUtf8 (ChunkType.fromBytes [82, 117, 49, 116]).bytes :=
    ⟨[82, 117, 49, 116], by decide, by decide⟩
  exact ⟨hU, (chunkType_render_utf8 (ChunkType.fromBytes [82, 117, 49, 116])).1 hU⟩
